import Mathlib

/-!
Shallow embedding of the aggregation engine of the repository
(`src/structs.rs`, `src/processors.rs`): the data model (`TagData`,
`SiteData`, `TotalsData`, `ResultData`), the merge operation (`combine`,
`reduce`, `impl Add for ResultData`), the per-line reducer
(`generate_result_data_from_line`, `process_lines`) and the ranking pass
(`sort_by_coef_and_name`, `process_tags`, `process_sites`,
`process_totals`).

`HashMap<String, T>` is embedded as an association list
`List (String × T)`; a well-formed map has pairwise distinct keys
(`List.Nodup` on the key list), which is the invariant the real hash map
maintains.  `u32` is embedded as `Nat` (the counters only ever grow by
small per-record amounts; overflow is not modelled).  The `u32` division
in `get_coef` panics on a zero divisor, so `get_coef` is embedded as an
`Option Nat` that is `none` exactly on the panic branch, and the ranking
functions propagate that `none`.
-/

set_option maxHeartbeats 1000000

/-- Source constant `CHATTY_TAGS_MAX` (structs.rs): maximum number of chatty tags. -/
def CHATTY_TAGS_MAX : Nat := 10

/-- Source constant `CHATTY_SITES_MAX` (processors.rs): maximum number of chatty sites. -/
def CHATTY_SITES_MAX : Nat := 10

/-- Source constant `QUESTIONS_PER_LINE` (processors.rs): questions contributed by one line. -/
def QUESTIONS_PER_LINE : Nat := 1

/-- Source constant `PADRON` (processors.rs): the registry number of the run. -/
def PADRON : Nat := 107587

/-- Models `HashMap::get`: the value stored at key `k`, if any.  On a
well-formed map (distinct keys) this is the unique entry with key `k`. -/
def lookupM {T : Type} : List (String × T) → String → Option T
  | [], _ => none
  | (k1, v1) :: rest, k => if k1 = k then some v1 else lookupM rest k

/-- The key list of an embedded map, in storage order. -/
def keysM {T : Type} (m : List (String × T)) : List String :=
  m.map Prod.fst

/-- Models `HashMap::insert`: overwrite the entry at `k` when present,
otherwise add a new entry. -/
def insertM {T : Type} : List (String × T) → String → T → List (String × T)
  | [], k, v => [(k, v)]
  | (k1, v1) :: rest, k, v =>
      if k1 = k then (k1, v) :: rest else (k1, v1) :: insertM rest k v

/-- Models the `entry` match inside `reduce` (structs.rs): a vacant key
inserts the incoming value, an occupied key combines the stored value
with the incoming one. -/
def insertOrCombine {T : Type} (c : T → T → T) : List (String × T) → String → T → List (String × T)
  | [], k, v => [(k, v)]
  | (k1, v1) :: rest, k, v =>
      if k1 = k then (k1, c v1 v) :: rest else (k1, v1) :: insertOrCombine c rest k v

/-- Models `reduce` (structs.rs): fold every entry of `origen` into
`destino` through `insertOrCombine`. -/
def reduce {T : Type} (c : T → T → T) (destino origen : List (String × T)) : List (String × T) :=
  origen.foldl (fun d kv => insertOrCombine c d kv.1 kv.2) destino

/-- Models `TagData` (structs.rs): the per-tag counter. -/
structure TagData where
  questions : Nat
  words : Nat
deriving DecidableEq, Repr

/-- Models `TagData::new`. -/
def TagData.new (questions words : Nat) : TagData :=
  { questions, words }

/-- Models `Reducible::combine` for `TagData` (structs.rs): add questions
and words pointwise. -/
def TagData.combine (a b : TagData) : TagData :=
  { questions := a.questions + b.questions, words := a.words + b.words }

/-- Models `TagData::get_coef` (structs.rs): integer division
`words / questions`; `none` models the division-by-zero panic of `u32`
division. -/
def TagData.get_coef (t : TagData) : Option Nat :=
  if t.questions = 0 then none else some (t.words / t.questions)

/-- Models `SiteData` (structs.rs). -/
structure SiteData where
  questions : Nat
  words : Nat
  tags : List (String × TagData)
  chatty_tags : List String
deriving DecidableEq, Repr

/-- Models `SiteData::new` (structs.rs): the `chatty_tags` field starts as
`CHATTY_TAGS_MAX` copies of the empty string, from
`vec![String::new(); CHATTY_TAGS_MAX]`. -/
def SiteData.new (questions words : Nat) (tags : List (String × TagData)) : SiteData :=
  { questions, words, tags, chatty_tags := List.replicate CHATTY_TAGS_MAX "" }

/-- Models `SiteData::get_coef` (structs.rs), with `none` on the
division-by-zero panic branch. -/
def SiteData.get_coef (s : SiteData) : Option Nat :=
  if s.questions = 0 then none else some (s.words / s.questions)

/-- Models `SiteData::load_chatty_tags` (structs.rs). -/
def SiteData.load_chatty_tags (s : SiteData) (chatty_tags : List String) : SiteData :=
  { s with chatty_tags }

/-- Models `Reducible::combine` for `SiteData` (structs.rs): add questions
and words, reduce the tag maps; the destination's `chatty_tags` is left
untouched and the source's is dropped. -/
def SiteData.combine (a b : SiteData) : SiteData :=
  { questions := a.questions + b.questions
    words := a.words + b.words
    tags := reduce TagData.combine a.tags b.tags
    chatty_tags := a.chatty_tags }

/-- Models `TotalsData` (structs.rs). -/
structure TotalsData where
  chatty_sites : List String
  chatty_tags : List String
deriving DecidableEq, Repr

/-- Models `ResultData` (structs.rs). -/
structure ResultData where
  padron : Nat
  sites : List (String × SiteData)
  tags : List (String × TagData)
  totals : TotalsData
deriving DecidableEq, Repr

/-- Models `ResultData::new` (structs.rs): the totals start out as two
empty lists. -/
def ResultData.new (padron : Nat) (sites : List (String × SiteData))
    (tags : List (String × TagData)) : ResultData :=
  { padron, sites, tags, totals := ⟨[], []⟩ }

/-- Models `impl std::ops::Add for ResultData` (structs.rs): reduce the
site and tag maps of `other` into `self`; `padron` and `totals` are the
left operand's, untouched. -/
def ResultData.add (a b : ResultData) : ResultData :=
  { padron := a.padron
    sites := reduce SiteData.combine a.sites b.sites
    tags := reduce TagData.combine a.tags b.tags
    totals := a.totals }

/-- The identity contribution: the empty `ResultData` used as the fold
seed in `process_lines` and `process_files` (processors.rs). -/
def ResultData.empty : ResultData :=
  ResultData.new PADRON [] []

/-- Models one text's `split_whitespace().count()` (processors.rs): the
number of maximal runs of non-whitespace characters.  `inTok` records
whether the previous character belonged to a token. -/
def tokenCount : List Char → Bool → Nat
  | [], _ => 0
  | c :: rest, inTok =>
      if c.isWhitespace then tokenCount rest false
      else (if inTok then 0 else 1) + tokenCount rest true

/-- Models `word_counter` (processors.rs): the total whitespace-separated
token count over all texts. -/
def word_counter (texts : List String) : Nat :=
  (texts.map (fun text => tokenCount text.toList false)).sum

/-- Models `LineJsonStructure` (structs.rs): one parsed input record. -/
structure LineJsonStructure where
  texts : List String
  tags : List String
deriving DecidableEq, Repr

/-- Models `JsonStructure` (structs.rs): a record together with its site. -/
structure JsonStructure where
  site : String
  texts : List String
  tags : List String
deriving DecidableEq, Repr

/-- Models `JsonStructure::new` (structs.rs). -/
def JsonStructure.new (site : String) : JsonStructure :=
  { site, texts := [], tags := [] }

/-- Models `JsonStructure::load_info` (structs.rs). -/
def JsonStructure.load_info (j : JsonStructure) (other : LineJsonStructure) : JsonStructure :=
  { j with texts := other.texts, tags := other.tags }

/-- Models `generate_result_data_from_line` (processors.rs): the singleton
contribution of one record.  Every tag of the record is `insert`-ed with
the same fresh counter, the site map is a singleton, and the global tag
map of the result is the site's own tag map. -/
def generate_result_data_from_line (line_struct : LineJsonStructure)
    (json_struct : JsonStructure) : ResultData :=
  let js := json_struct.load_info line_struct
  let words_count := word_counter js.texts
  let tags := js.tags.foldl
    (fun m tag => insertM m tag (TagData.new QUESTIONS_PER_LINE words_count)) []
  let site_data := SiteData.new QUESTIONS_PER_LINE words_count tags
  let site_subhash := insertM [] js.site site_data
  ResultData.new PADRON site_subhash site_data.tags

/-- Models the per-line branch of `process_lines` (processors.rs): a line
that parses becomes a singleton contribution; a malformed line becomes
the empty `ResultData` (`none` stands for a line whose JSON failed to
parse). -/
def line_contribution (site_name : String) : Option LineJsonStructure → ResultData
  | some data => generate_result_data_from_line data (JsonStructure.new site_name)
  | none => ResultData.empty

/-- Models `process_lines` (processors.rs): fold every line contribution
with `ResultData.add`, starting from the empty `ResultData`. -/
def process_lines (lines : List (Option LineJsonStructure)) (site_name : String) : ResultData :=
  (lines.map (line_contribution site_name)).foldl ResultData.add ResultData.empty

/-- The comparator of `sort_by_coef_and_name` (processors.rs):
coefficient descending, name ascending on ties.  Names are compared in
the lexicographic character order, stated on `String.toList` (equivalent
to the string order by `String.le_iff_toList_le`), which is the order
`partial_cmp` uses on Rust strings. -/
def rankLE (a b : String × Nat) : Prop :=
  b.2 < a.2 ∨ (a.2 = b.2 ∧ a.1.toList ≤ b.1.toList)

instance : DecidableRel rankLE := fun a b => by
  unfold rankLE; infer_instance

/-- Models `sort_by_coef_and_name` (processors.rs): a stable sort of the
pairs by coefficient descending, breaking ties by name ascending (the
source's `sort_by` is a stable sort, so any stable sort models it). -/
def sort_by_coef_and_name (data : List (String × Nat)) : List (String × Nat) :=
  List.insertionSort rankLE data

/-- Models `process_tags` (processors.rs): compute each entry's
coefficient (`none` propagates a division-by-zero panic), sort, and keep
the first `CHATTY_TAGS_MAX` names. -/
def process_tags (tags_data : List (String × TagData)) : Option (List String) :=
  match tags_data.mapM (fun kv => Option.map (fun c => (kv.1, c)) kv.2.get_coef) with
  | none => none
  | some top_tags =>
      some (((sort_by_coef_and_name top_tags).take CHATTY_TAGS_MAX).map Prod.fst)

/-- Models `process_sites` (processors.rs): load each site's chatty tags
from its own tag map, rank the sites by their own coefficient; returns
the updated site map together with the chatty site names. -/
def process_sites (sites_data : List (String × SiteData)) :
    Option (List (String × SiteData) × List String) :=
  match sites_data.mapM (fun kv =>
      Option.bind (process_tags kv.2.tags) (fun ct =>
        Option.map (fun coef => ((kv.1, kv.2.load_chatty_tags ct), (kv.1, coef)))
          kv.2.get_coef)) with
  | none => none
  | some pairs =>
      some (pairs.map Prod.fst,
        ((sort_by_coef_and_name (pairs.map Prod.snd)).take CHATTY_SITES_MAX).map Prod.fst)

/-- Models `process_totals` (processors.rs): fill in the totals and the
per-site chatty tags from the accumulated maps. -/
def process_totals (r : ResultData) : Option ResultData :=
  match process_sites r.sites with
  | none => none
  | some (sites2, chatty_sites) =>
      match process_tags r.tags with
      | none => none
      | some chatty_tags =>
          some { r with sites := sites2, totals := ⟨chatty_sites, chatty_tags⟩ }

/-- The per-key effect of `reduce`: a key present in both maps combines
the two values, a key present in one map keeps its value, a key in
neither is absent. -/
def optCombine {T : Type} (c : T → T → T) : Option T → Option T → Option T
  | none, o => o
  | some v, none => some v
  | some v, some w => some (c v w)

/-- Lift a relation on values to `Option`s: both absent, or both present
and related. -/
def OptRel {T : Type} (R : T → T → Prop) : Option T → Option T → Prop
  | none, none => True
  | some a, some b => R a b
  | _, _ => False

/-- Two embedded tag maps are equivalent when they agree on every key
(same key-set and same counters). -/
def TagsEquiv (m1 m2 : List (String × TagData)) : Prop :=
  ∀ k, lookupM m1 k = lookupM m2 k

/-- Two `SiteData` are equivalent when they agree on everything except
the ranking field `chatty_tags`. -/
def SiteData.equiv (a b : SiteData) : Prop :=
  a.questions = b.questions ∧ a.words = b.words ∧ TagsEquiv a.tags b.tags

/-- Two embedded site maps are equivalent when they have the same key-set
and equivalent `SiteData` at every key. -/
def SitesEquiv (m1 m2 : List (String × SiteData)) : Prop :=
  ∀ k, OptRel SiteData.equiv (lookupM m1 k) (lookupM m2 k)

/-- Two `ResultData` are equivalent when their site maps and global tag
maps agree on every key, ignoring the ranking fields (`padron`, `totals`
and every site's `chatty_tags`). -/
def ResultData.equiv (a b : ResultData) : Prop :=
  SitesEquiv a.sites b.sites ∧ TagsEquiv a.tags b.tags

/-- A well-formed `SiteData`: its tag map has pairwise distinct keys, the
invariant `HashMap` maintains. -/
def SiteData.WF (s : SiteData) : Prop :=
  (keysM s.tags).Nodup

/-- A well-formed `ResultData`: distinct keys in the site and tag maps,
and every stored `SiteData` well-formed. -/
def ResultData.WF (r : ResultData) : Prop :=
  (keysM r.sites).Nodup ∧ (keysM r.tags).Nodup ∧ ∀ p ∈ r.sites, p.2.WF

instance (s : SiteData) : Decidable s.WF := by
  unfold SiteData.WF
  infer_instance

instance (r : ResultData) : Decidable r.WF := by
  unfold ResultData.WF
  infer_instance

/-- The sequential fold of a list of contributions, the seed being the
empty `ResultData`: this is the loop of `process_files` (processors.rs)
and the linearisation of the parallel `reduce` of `process_lines`. -/
def fold_contributions (l : List ResultData) : ResultData :=
  l.foldl ResultData.add ResultData.empty

/-- A grouping of merge calls over contributions: the shape of any
reduction tree the parallel fold may produce. -/
inductive MergeTree where
  | leaf : ResultData → MergeTree
  | node : MergeTree → MergeTree → MergeTree
deriving DecidableEq

/-- Evaluate a reduction tree with `ResultData.add` at every node. -/
def MergeTree.eval : MergeTree → ResultData
  | .leaf r => r
  | .node l r => l.eval.add r.eval

/-- The contributions at the leaves of a reduction tree, left to right. -/
def MergeTree.leaves : MergeTree → List ResultData
  | .leaf r => [r]
  | .node l r => l.leaves ++ r.leaves

instance : IsTrans (String × Nat) rankLE := by
  constructor
  intro a b c hab hbc
  rcases hab with h1 | ⟨h1, h1'⟩ <;> rcases hbc with h2 | ⟨h2, h2'⟩
  · exact Or.inl (lt_trans h2 h1)
  · exact Or.inl (h2 ▸ h1)
  · exact Or.inl (h1 ▸ h2)
  · exact Or.inr ⟨h1.trans h2, le_trans h1' h2'⟩

instance : IsTotal (String × Nat) rankLE := by
  constructor
  intro a b
  rcases lt_trichotomy a.2 b.2 with h | h | h
  · exact Or.inr (Or.inl h)
  · rcases le_total a.1.toList b.1.toList with h' | h'
    · exact Or.inl (Or.inr ⟨h, h'⟩)
    · exact Or.inr (Or.inr ⟨h.symm, h'⟩)
  · exact Or.inl (Or.inl h)

instance : IsAntisymm (String × Nat) rankLE := by
  constructor
  intro a b hab hba
  rcases hab with h1 | ⟨h1, h1'⟩ <;> rcases hba with h2 | ⟨h2, h2'⟩
  · exact absurd (lt_trans h1 h2) (lt_irrefl _)
  · exact absurd (h2 ▸ h1) (lt_irrefl _)
  · exact absurd (h1 ▸ h2) (lt_irrefl _)
  · have hn : a.1 = b.1 := by
      have := le_antisymm h1' h2'
      exact String.ext (by simpa [String.toList] using this)
    exact Prod.ext hn h1

theorem optCombine_none_left {T : Type} (c : T → T → T) (o : Option T) :
    optCombine c none o = o := rfl

theorem optCombine_none_right {T : Type} (c : T → T → T) (o : Option T) :
    optCombine c o none = o := by
  cases o <;> rfl

theorem lookupM_nil {T : Type} (k : String) : lookupM ([] : List (String × T)) k = none := rfl

theorem lookupM_cons {T : Type} (k1 : String) (v1 : T) (rest : List (String × T)) (k : String) :
    lookupM ((k1, v1) :: rest) k = if k1 = k then some v1 else lookupM rest k := rfl

theorem lookupM_mem {T : Type} {m : List (String × T)} {k : String} {v : T}
    (h : lookupM m k = some v) : (k, v) ∈ m := by
  induction m with
  | nil => simp [lookupM] at h
  | cons p rest ih =>
      obtain ⟨k1, v1⟩ := p
      rw [lookupM_cons] at h
      by_cases hk : k1 = k
      · subst hk
        simp at h
        subst h
        exact List.mem_cons_self _ _
      · rw [if_neg hk] at h
        exact List.mem_cons_of_mem _ (ih h)

theorem lookupM_eq_none_iff {T : Type} (m : List (String × T)) (k : String) :
    lookupM m k = none ↔ k ∉ keysM m := by
  induction m with
  | nil => simp [lookupM, keysM]
  | cons p rest ih =>
      obtain ⟨k1, v1⟩ := p
      rw [lookupM_cons]
      by_cases hk : k1 = k
      · subst hk
        simp [keysM]
      · simp [keysM, hk, Ne.symm hk] at ih ⊢
        exact ih

theorem lookupM_isSome_iff {T : Type} (m : List (String × T)) (k : String) :
    (lookupM m k).isSome ↔ k ∈ keysM m := by
  rw [← Decidable.not_not (p := k ∈ keysM m), ← lookupM_eq_none_iff]
  cases lookupM m k <;> simp

theorem mem_of_mem_keysM {T : Type} {m : List (String × T)} {k : String}
    (h : k ∈ keysM m) : ∃ v, lookupM m k = some v := by
  have := (lookupM_isSome_iff m k).mpr h
  cases hv : lookupM m k with
  | none => rw [hv] at this; simp at this
  | some v => exact ⟨v, rfl⟩

theorem lookupM_insertM {T : Type} (m : List (String × T)) (k : String) (v : T) (q : String) :
    lookupM (insertM m k v) q = if k = q then some v else lookupM m q := by
  induction m with
  | nil => rfl
  | cons p rest ih =>
      obtain ⟨k1, v1⟩ := p
      by_cases h1 : k1 = k
      · subst h1
        simp only [insertM, if_pos rfl]
        by_cases hq : k1 = q
        · subst hq
          simp [lookupM_cons]
        · simp [lookupM_cons, hq]
      · simp only [insertM, if_neg h1, lookupM_cons]
        by_cases hq : k1 = q
        · subst hq
          simp [Ne.symm h1]
        · simp [hq, ih]

theorem lookupM_insertOrCombine {T : Type} (c : T → T → T) (m : List (String × T))
    (k : String) (v : T) (q : String) :
    lookupM (insertOrCombine c m k v) q =
      if k = q then optCombine c (lookupM m q) (some v) else lookupM m q := by
  induction m with
  | nil =>
      by_cases hq : k = q
      · subst hq
        simp [insertOrCombine, lookupM_cons, lookupM_nil, optCombine]
      · simp [insertOrCombine, lookupM_cons, lookupM_nil, hq]
  | cons p rest ih =>
      obtain ⟨k1, v1⟩ := p
      by_cases h1 : k1 = k
      · subst h1
        by_cases hq : k1 = q
        · subst hq
          simp [insertOrCombine, lookupM_cons, optCombine]
        · simp [insertOrCombine, lookupM_cons, hq]
      · by_cases hq : k1 = q
        · subst hq
          simp [insertOrCombine, h1, lookupM_cons, Ne.symm h1]
        · simp [insertOrCombine, h1, lookupM_cons, hq, ih]

theorem keysM_insertOrCombine {T : Type} (c : T → T → T) (m : List (String × T))
    (k : String) (v : T) :
    keysM (insertOrCombine c m k v) =
      if k ∈ keysM m then keysM m else keysM m ++ [k] := by
  induction m with
  | nil => simp [insertOrCombine, keysM]
  | cons p rest ih =>
      obtain ⟨k1, v1⟩ := p
      by_cases h1 : k1 = k
      · subst h1
        simp [insertOrCombine, keysM]
      · simp only [insertOrCombine, if_neg h1, keysM, List.map_cons] at ih ⊢
        rw [ih]
        by_cases hk : k ∈ List.map Prod.fst rest
        · simp [hk, Ne.symm h1]
        · simp [hk, Ne.symm h1]

theorem nodup_insertOrCombine {T : Type} (c : T → T → T) {m : List (String × T)}
    (h : (keysM m).Nodup) (k : String) (v : T) :
    (keysM (insertOrCombine c m k v)).Nodup := by
  rw [keysM_insertOrCombine]
  by_cases hk : k ∈ keysM m
  · simp [hk, h]
  · simp [hk, List.nodup_append, h]

theorem reduce_nil {T : Type} (c : T → T → T) (d : List (String × T)) :
    reduce c d [] = d := rfl

theorem reduce_cons {T : Type} (c : T → T → T) (d : List (String × T)) (k : String) (v : T)
    (s : List (String × T)) :
    reduce c d ((k, v) :: s) = reduce c (insertOrCombine c d k v) s := rfl

theorem nodup_reduce {T : Type} (c : T → T → T) {d : List (String × T)}
    (s : List (String × T)) (h : (keysM d).Nodup) :
    (keysM (reduce c d s)).Nodup := by
  induction s generalizing d with
  | nil => exact h
  | cons p rest ih =>
      obtain ⟨k, v⟩ := p
      rw [reduce_cons]
      exact ih (nodup_insertOrCombine c h k v)

theorem lookupM_reduce {T : Type} (c : T → T → T) (d : List (String × T))
    {s : List (String × T)} (hs : (keysM s).Nodup) (q : String) :
    lookupM (reduce c d s) q = optCombine c (lookupM d q) (lookupM s q) := by
  induction s generalizing d with
  | nil => rw [reduce_nil, lookupM_nil, optCombine_none_right]
  | cons p rest ih =>
      obtain ⟨k, v⟩ := p
      simp only [keysM, List.map_cons, List.nodup_cons] at hs
      rw [reduce_cons, ih (insertOrCombine c d k v) hs.2, lookupM_insertOrCombine, lookupM_cons]
      by_cases hq : k = q
      · subst hq
        have : lookupM rest k = none := (lookupM_eq_none_iff rest k).mpr hs.1
        rw [this, if_pos rfl, if_pos rfl, optCombine_none_right]
      · rw [if_neg hq, if_neg hq]

theorem mem_iff_lookupM {T : Type} {m : List (String × T)} (h : (keysM m).Nodup)
    (k : String) (v : T) : (k, v) ∈ m ↔ lookupM m k = some v := by
  constructor
  · intro hm
    induction m with
    | nil => simp at hm
    | cons p rest ih =>
        obtain ⟨k1, v1⟩ := p
        simp only [keysM, List.map_cons, List.nodup_cons] at h
        rcases List.mem_cons.mp hm with he | hm'
        · obtain ⟨h1, h2⟩ := Prod.mk.injEq .. ▸ he
          subst h1; subst h2
          simp [lookupM_cons]
        · have hk : k ∈ keysM rest := by
            simpa [keysM] using List.mem_map_of_mem Prod.fst hm'
          have hne : k1 ≠ k := fun he' => h.1 (he' ▸ hk)
          rw [lookupM_cons, if_neg hne]
          exact ih h.2 hm'
  · exact lookupM_mem

theorem lookupM_reduce_comm {T : Type} (c : T → T → T)
    (hc : ∀ x y, c x y = c y x) {a b : List (String × T)}
    (ha : (keysM a).Nodup) (hb : (keysM b).Nodup) (q : String) :
    lookupM (reduce c a b) q = lookupM (reduce c b a) q := by
  rw [lookupM_reduce c a hb, lookupM_reduce c b ha]
  cases lookupM a q <;> cases lookupM b q <;> simp [optCombine, hc]

theorem lookupM_reduce_assoc {T : Type} (c : T → T → T)
    (hc : ∀ x y z, c (c x y) z = c x (c y z)) {a b d : List (String × T)}
    (hb : (keysM b).Nodup) (hd : (keysM d).Nodup) (q : String) :
    lookupM (reduce c (reduce c a b) d) q = lookupM (reduce c a (reduce c b d)) q := by
  rw [lookupM_reduce c (reduce c a b) hd, lookupM_reduce c a hb,
      lookupM_reduce c a (nodup_reduce c d hb), lookupM_reduce c b hd]
  cases lookupM a q <;> cases lookupM b q <;> cases lookupM d q <;> simp [optCombine, hc]

theorem TagData.combine_comm (a b : TagData) : a.combine b = b.combine a := by
  cases a; cases b; simp [TagData.combine, Nat.add_comm]

theorem TagData.combine_assoc (a b c : TagData) :
    (a.combine b).combine c = a.combine (b.combine c) := by
  cases a; cases b; cases c; simp [TagData.combine, Nat.add_assoc]

theorem SiteData.equivRefl (a : SiteData) : a.equiv a :=
  ⟨rfl, rfl, fun _ => rfl⟩

theorem SiteData.equivSymm {a b : SiteData} (h : a.equiv b) : b.equiv a :=
  ⟨h.1.symm, h.2.1.symm, fun k => (h.2.2 k).symm⟩

theorem SiteData.equivTrans {a b c : SiteData} (h1 : a.equiv b) (h2 : b.equiv c) : a.equiv c :=
  ⟨h1.1.trans h2.1, h1.2.1.trans h2.2.1, fun k => (h1.2.2 k).trans (h2.2.2 k)⟩

theorem SiteData.combine_WF {a : SiteData} (b : SiteData) (ha : a.WF) : (a.combine b).WF :=
  nodup_reduce TagData.combine b.tags ha

theorem SiteData.combine_comm_equiv {a b : SiteData} (ha : a.WF) (hb : b.WF) :
    (a.combine b).equiv (b.combine a) :=
  ⟨Nat.add_comm .., Nat.add_comm .., fun k =>
    lookupM_reduce_comm TagData.combine TagData.combine_comm ha hb k⟩

theorem SiteData.combine_assoc_equiv (a : SiteData) {b c : SiteData} (hb : b.WF) (hc : c.WF) :
    ((a.combine b).combine c).equiv (a.combine (b.combine c)) :=
  ⟨Nat.add_assoc .., Nat.add_assoc .., fun k =>
    lookupM_reduce_assoc TagData.combine TagData.combine_assoc hb hc k⟩

theorem SiteData.combine_congr {a a' b b' : SiteData} (h1 : a.equiv a') (h2 : b.equiv b')
    (hb : b.WF) (hb' : b'.WF) : (a.combine b).equiv (a'.combine b') := by
  refine ⟨by simp [SiteData.combine, h1.1, h2.1], by simp [SiteData.combine, h1.2.1, h2.2.1], ?_⟩
  intro k
  show lookupM (reduce TagData.combine a.tags b.tags) k
      = lookupM (reduce TagData.combine a'.tags b'.tags) k
  rw [lookupM_reduce TagData.combine a.tags hb k,
      lookupM_reduce TagData.combine a'.tags hb' k, h1.2.2 k, h2.2.2 k]

theorem ResultData.equiv_refl (a : ResultData) : a.equiv a :=
  ⟨fun k => by cases lookupM a.sites k <;> simp [OptRel, SiteData.equivRefl], fun _ => rfl⟩

theorem OptRel_none_none {T : Type} (R : T → T → Prop) : OptRel R none none :=
  True.intro

theorem OptRel_false_left {T : Type} {R : T → T → Prop} {x : T}
    (h : OptRel R none (some x)) : False := h

theorem OptRel_false_right {T : Type} {R : T → T → Prop} {x : T}
    (h : OptRel R (some x) none) : False := h

theorem OptRel_some_some {T : Type} {R : T → T → Prop} {x y : T}
    (h : OptRel R (some x) (some y)) : R x y := h

theorem OptRel_of_rel {T : Type} {R : T → T → Prop} {x y : T}
    (h : R x y) : OptRel R (some x) (some y) := h

theorem ResultData.equiv_symm {a b : ResultData} (h : a.equiv b) : b.equiv a := by
  refine ⟨fun k => ?_, fun k => (h.2 k).symm⟩
  have hs := h.1 k
  cases hA : lookupM a.sites k <;> cases hB : lookupM b.sites k <;> rw [hA, hB] at hs
  · exact OptRel_none_none _
  · exact (OptRel_false_left hs).elim
  · exact (OptRel_false_right hs).elim
  · exact OptRel_of_rel (SiteData.equivSymm (OptRel_some_some hs))

theorem ResultData.equiv_trans {a b c : ResultData} (h1 : a.equiv b) (h2 : b.equiv c) :
    a.equiv c := by
  refine ⟨fun k => ?_, fun k => (h1.2 k).trans (h2.2 k)⟩
  have hs1 := h1.1 k
  have hs2 := h2.1 k
  cases hA : lookupM a.sites k <;> cases hB : lookupM b.sites k <;> rw [hA, hB] at hs1 <;>
    cases hC : lookupM c.sites k <;> rw [hB, hC] at hs2
  · exact OptRel_none_none _
  · exact (OptRel_false_left hs2).elim
  · exact (OptRel_false_left hs1).elim
  · exact (OptRel_false_left hs1).elim
  · exact (OptRel_false_right hs1).elim
  · exact (OptRel_false_right hs1).elim
  · exact (OptRel_false_right hs2).elim
  · exact OptRel_of_rel
      (SiteData.equivTrans (OptRel_some_some hs1) (OptRel_some_some hs2))

theorem ResultData.add_WF {a b : ResultData} (ha : a.WF) (hb : b.WF) : (a.add b).WF := by
  refine ⟨nodup_reduce SiteData.combine b.sites ha.1, nodup_reduce TagData.combine b.tags ha.2.1, ?_⟩
  intro p hp
  have hget : lookupM (reduce SiteData.combine a.sites b.sites) p.1 = some p.2 :=
    (mem_iff_lookupM (nodup_reduce SiteData.combine b.sites ha.1) p.1 p.2).mp hp
  rw [lookupM_reduce SiteData.combine a.sites hb.1] at hget
  cases hA : lookupM a.sites p.1 with
  | none =>
      cases hB : lookupM b.sites p.1 with
      | none =>
          rw [hA, hB] at hget
          exact absurd hget (by simp [optCombine])
      | some vb =>
          rw [hA, hB] at hget
          simp only [optCombine, Option.some.injEq] at hget
          rw [← hget]
          exact hb.2.2 _ (lookupM_mem hB)
  | some va =>
      cases hB : lookupM b.sites p.1 with
      | none =>
          rw [hA, hB] at hget
          simp only [optCombine, Option.some.injEq] at hget
          rw [← hget]
          exact ha.2.2 _ (lookupM_mem hA)
      | some vb =>
          rw [hA, hB] at hget
          simp only [optCombine, Option.some.injEq] at hget
          rw [← hget]
          exact SiteData.combine_WF _ (ha.2.2 _ (lookupM_mem hA))

theorem ResultData.add_comm_equiv {a b : ResultData} (ha : a.WF) (hb : b.WF) :
    (a.add b).equiv (b.add a) := by
  refine ⟨fun k => ?_, fun k =>
    lookupM_reduce_comm TagData.combine TagData.combine_comm ha.2.1 hb.2.1 k⟩
  show OptRel SiteData.equiv (lookupM (reduce SiteData.combine a.sites b.sites) k)
      (lookupM (reduce SiteData.combine b.sites a.sites) k)
  rw [lookupM_reduce SiteData.combine a.sites hb.1 k,
      lookupM_reduce SiteData.combine b.sites ha.1 k]
  cases hA : lookupM a.sites k <;> cases hB : lookupM b.sites k <;> simp only [optCombine]
  · trivial
  · exact SiteData.equivRefl _
  · exact SiteData.equivRefl _
  · exact SiteData.combine_comm_equiv (ha.2.2 _ (lookupM_mem hA)) (hb.2.2 _ (lookupM_mem hB))

theorem ResultData.add_assoc_equiv (a : ResultData) {b c : ResultData} (hb : b.WF) (hc : c.WF) :
    ((a.add b).add c).equiv (a.add (b.add c)) := by
  refine ⟨fun k => ?_, fun k =>
    lookupM_reduce_assoc TagData.combine TagData.combine_assoc hb.2.1 hc.2.1 k⟩
  show OptRel SiteData.equiv
      (lookupM (reduce SiteData.combine (reduce SiteData.combine a.sites b.sites) c.sites) k)
      (lookupM (reduce SiteData.combine a.sites (reduce SiteData.combine b.sites c.sites)) k)
  rw [lookupM_reduce SiteData.combine (reduce SiteData.combine a.sites b.sites) hc.1 k,
      lookupM_reduce SiteData.combine a.sites hb.1 k,
      lookupM_reduce SiteData.combine a.sites (nodup_reduce SiteData.combine c.sites hb.1) k,
      lookupM_reduce SiteData.combine b.sites hc.1 k]
  cases hA : lookupM a.sites k <;> cases hB : lookupM b.sites k <;>
    cases hC : lookupM c.sites k <;> simp only [optCombine]
  all_goals first
    | trivial
    | exact SiteData.equivRefl _
    | exact SiteData.combine_assoc_equiv _ (hb.2.2 _ (lookupM_mem hB)) (hc.2.2 _ (lookupM_mem hC))

theorem ResultData.add_congr {a a' b b' : ResultData} (h1 : a.equiv a') (h2 : b.equiv b')
    (hb : b.WF) (hb' : b'.WF) : (a.add b).equiv (a'.add b') := by
  refine ⟨fun k => ?_, fun k => ?_⟩
  · show OptRel SiteData.equiv (lookupM (reduce SiteData.combine a.sites b.sites) k)
        (lookupM (reduce SiteData.combine a'.sites b'.sites) k)
    rw [lookupM_reduce SiteData.combine a.sites hb.1 k,
        lookupM_reduce SiteData.combine a'.sites hb'.1 k]
    have HA := h1.1 k
    have HB := h2.1 k
    cases hA : lookupM a.sites k <;> cases hA' : lookupM a'.sites k <;>
      rw [hA, hA'] at HA <;> cases hB : lookupM b.sites k <;>
      cases hB' : lookupM b'.sites k <;> rw [hB, hB'] at HB <;> simp only [optCombine]
    all_goals first
      | trivial
      | exact HA.elim
      | exact HB.elim
      | exact HA
      | exact HB
      | exact SiteData.combine_congr HA HB (hb.2.2 _ (lookupM_mem hB)) (hb'.2.2 _ (lookupM_mem hB'))
  · show lookupM (reduce TagData.combine a.tags b.tags) k
        = lookupM (reduce TagData.combine a'.tags b'.tags) k
    rw [lookupM_reduce TagData.combine a.tags hb.2.1 k,
        lookupM_reduce TagData.combine a'.tags hb'.2.1 k, h1.2 k, h2.2 k]

theorem ResultData.add_empty (a : ResultData) : a.add ResultData.empty = a := by
  cases a; rfl

theorem ResultData.empty_WF : ResultData.empty.WF := by
  refine ⟨List.nodup_nil, List.nodup_nil, ?_⟩
  intro p hp
  simp [ResultData.empty, ResultData.new] at hp

theorem ResultData.empty_add_equiv {a : ResultData} (ha : a.WF) :
    (ResultData.empty.add a).equiv a := by
  refine ⟨fun k => ?_, fun k => ?_⟩
  · show OptRel SiteData.equiv (lookupM (reduce SiteData.combine [] a.sites) k)
        (lookupM a.sites k)
    rw [lookupM_reduce SiteData.combine [] ha.1 k, lookupM_nil, optCombine_none_left]
    cases lookupM a.sites k
    · trivial
    · exact SiteData.equivRefl _
  · show lookupM (reduce TagData.combine [] a.tags) k = lookupM a.tags k
    rw [lookupM_reduce TagData.combine [] ha.2.1 k, lookupM_nil, optCombine_none_left]

theorem foldl_add_WF : ∀ (l : List ResultData) (a : ResultData),
    (∀ r ∈ l, r.WF) → a.WF → (l.foldl ResultData.add a).WF
  | [], _, _, ha => ha
  | x :: rest, a, hl, ha =>
      foldl_add_WF rest (a.add x)
        (fun r hr => hl r (List.mem_cons_of_mem _ hr))
        (ResultData.add_WF ha (hl x (List.mem_cons_self _ _)))

theorem foldl_add_congr : ∀ (l : List ResultData) {a b : ResultData},
    (∀ r ∈ l, r.WF) → a.equiv b →
    (l.foldl ResultData.add a).equiv (l.foldl ResultData.add b)
  | [], _, _, _, hab => hab
  | x :: rest, _, _, hl, hab =>
      foldl_add_congr rest (fun r hr => hl r (List.mem_cons_of_mem _ hr))
        (ResultData.add_congr hab (ResultData.equiv_refl x)
          (hl x (List.mem_cons_self _ _)) (hl x (List.mem_cons_self _ _)))

theorem foldl_add_perm {l1 l2 : List ResultData} (hp : l1.Perm l2) :
    (∀ r ∈ l1, r.WF) → ∀ {a : ResultData}, a.WF →
      (l1.foldl ResultData.add a).equiv (l2.foldl ResultData.add a) := by
  induction hp with
  | nil =>
      intro _ a _
      exact ResultData.equiv_refl _
  | cons x p ih =>
      intro hl a ha
      exact ih (fun r hr => hl r (List.mem_cons_of_mem _ hr))
        (ResultData.add_WF ha (hl x (List.mem_cons_self _ _)))
  | swap x y rest =>
      intro hl a ha
      have hx : x.WF := hl x (by simp)
      have hy : y.WF := hl y (by simp)
      have hrest : ∀ r ∈ rest, r.WF := fun r hr => hl r (by simp [hr])
      have h1 : ((a.add y).add x).equiv ((a.add x).add y) := by
        have e1 := ResultData.add_assoc_equiv a hy hx
        have e2 : (a.add (y.add x)).equiv (a.add (x.add y)) :=
          ResultData.add_congr (ResultData.equiv_refl a)
            (ResultData.add_comm_equiv hy hx) (ResultData.add_WF hy hx) (ResultData.add_WF hx hy)
        have e3 := ResultData.equiv_symm (ResultData.add_assoc_equiv a hx hy)
        exact ResultData.equiv_trans (ResultData.equiv_trans e1 e2) e3
      exact foldl_add_congr rest hrest h1
  | trans p1 _ ih1 ih2 =>
      intro hl a ha
      exact ResultData.equiv_trans (ih1 hl ha)
        (ih2 (fun r hr => hl r (p1.mem_iff.mpr hr)) ha)

theorem foldl_add_extract : ∀ (l : List ResultData) {a : ResultData},
    a.WF → (∀ r ∈ l, r.WF) →
    (l.foldl ResultData.add a).equiv (a.add (fold_contributions l))
  | [], a, _, _ => by
      show a.equiv (a.add ResultData.empty)
      rw [ResultData.add_empty]
      exact ResultData.equiv_refl a
  | x :: rest, a, ha, hl => by
      have hx : x.WF := hl x (List.mem_cons_self _ _)
      have hrest : ∀ r ∈ rest, r.WF := fun r hr => hl r (List.mem_cons_of_mem _ hr)
      have hF : (fold_contributions rest).WF :=
        foldl_add_WF rest ResultData.empty hrest ResultData.empty_WF
      have step1 : ((x :: rest).foldl ResultData.add a).equiv ((a.add x).add (fold_contributions rest)) :=
        foldl_add_extract rest (ResultData.add_WF ha hx) hrest
      have step2 : ((a.add x).add (fold_contributions rest)).equiv (a.add (x.add (fold_contributions rest))) :=
        ResultData.add_assoc_equiv a hx hF
      have claim : (fold_contributions (x :: rest)).equiv (x.add (fold_contributions rest)) := by
        have i1 : (fold_contributions (x :: rest)).equiv ((ResultData.empty.add x).add (fold_contributions rest)) :=
          foldl_add_extract rest (ResultData.add_WF ResultData.empty_WF hx) hrest
        have i2 : ((ResultData.empty.add x).add (fold_contributions rest)).equiv (x.add (fold_contributions rest)) :=
          ResultData.add_congr (ResultData.empty_add_equiv hx) (ResultData.equiv_refl _) hF hF
        exact ResultData.equiv_trans i1 i2
      have step3 : (a.add (x.add (fold_contributions rest))).equiv (a.add (fold_contributions (x :: rest))) :=
        ResultData.add_congr (ResultData.equiv_refl a) (ResultData.equiv_symm claim)
          (ResultData.add_WF hx hF)
          (foldl_add_WF (x :: rest) ResultData.empty hl ResultData.empty_WF)
      exact ResultData.equiv_trans (ResultData.equiv_trans step1 step2) step3

theorem fold_contributions_append (l1 l2 : List ResultData)
    (h1 : ∀ r ∈ l1, r.WF) (h2 : ∀ r ∈ l2, r.WF) :
    (fold_contributions (l1 ++ l2)).equiv
      ((fold_contributions l1).add (fold_contributions l2)) := by
  unfold fold_contributions
  rw [List.foldl_append]
  exact foldl_add_extract l2 (foldl_add_WF l1 ResultData.empty h1 ResultData.empty_WF) h2

theorem MergeTree.eval_WF : ∀ (t : MergeTree), (∀ r ∈ t.leaves, r.WF) → t.eval.WF
  | .leaf r, h => h r (by simp [MergeTree.leaves])
  | .node l r, h =>
      ResultData.add_WF (l.eval_WF fun x hx => h x (by simp [MergeTree.leaves, hx]))
        (r.eval_WF fun x hx => h x (by simp [MergeTree.leaves, hx]))

theorem MergeTree.eval_equiv_fold : ∀ (t : MergeTree), (∀ r ∈ t.leaves, r.WF) →
    t.eval.equiv (fold_contributions t.leaves)
  | .leaf r, h => by
      have hr : r.WF := h r (by simp [MergeTree.leaves])
      exact ResultData.equiv_symm (ResultData.empty_add_equiv hr)
  | .node l r, h => by
      have hl : ∀ x ∈ l.leaves, x.WF := fun x hx => h x (by simp [MergeTree.leaves, hx])
      have hr : ∀ x ∈ r.leaves, x.WF := fun x hx => h x (by simp [MergeTree.leaves, hx])
      have hFr : (fold_contributions r.leaves).WF :=
        foldl_add_WF r.leaves ResultData.empty hr ResultData.empty_WF
      have step1 : (l.eval.add r.eval).equiv
          ((fold_contributions l.leaves).add (fold_contributions r.leaves)) :=
        ResultData.add_congr (MergeTree.eval_equiv_fold l hl) (MergeTree.eval_equiv_fold r hr)
          (MergeTree.eval_WF r hr) hFr
      exact ResultData.equiv_trans step1
        (ResultData.equiv_symm (fold_contributions_append l.leaves r.leaves hl hr))

theorem lookupM_foldl_insertM {T : Type} (v : T) :
    ∀ (l : List String) (m0 : List (String × T)) (t : String),
    lookupM (l.foldl (fun m tag => insertM m tag v) m0) t
      = if t ∈ l then some v else lookupM m0 t
  | [], m0, t => by simp
  | k1 :: rest, m0, t => by
      have ih := lookupM_foldl_insertM v rest (insertM m0 k1 v) t
      show lookupM (rest.foldl (fun m tag => insertM m tag v) (insertM m0 k1 v)) t = _
      rw [ih, lookupM_insertM]
      by_cases h1 : t ∈ rest
      · simp [h1]
      · by_cases h2 : k1 = t
        · subst h2
          simp [h1]
        · simp [h1, h2, Ne.symm h2]

/-- C2: `merge` on Counters adds questions and words pointwise; on
SiteAggregates it adds questions and words the same way and takes the
key-wise union of the tag maps, combining the Counters of a key present
in both operands and copying through a key present in only one. -/
theorem claim_C2_combine_pointwise :
    (∀ a b : TagData, (a.combine b).questions = a.questions + b.questions ∧
        (a.combine b).words = a.words + b.words) ∧
    (∀ a b : SiteData, (a.combine b).questions = a.questions + b.questions ∧
        (a.combine b).words = a.words + b.words) ∧
    (∀ a b : SiteData, (keysM b.tags).Nodup → ∀ k,
      (∀ va vb, lookupM a.tags k = some va → lookupM b.tags k = some vb →
          lookupM (a.combine b).tags k = some (va.combine vb)) ∧
      (lookupM b.tags k = none → lookupM (a.combine b).tags k = lookupM a.tags k) ∧
      (lookupM a.tags k = none → lookupM (a.combine b).tags k = lookupM b.tags k)) := by
  refine ⟨fun a b => ⟨rfl, rfl⟩, fun a b => ⟨rfl, rfl⟩, ?_⟩
  intro a b hb k
  have hred : lookupM (a.combine b).tags k
      = optCombine TagData.combine (lookupM a.tags k) (lookupM b.tags k) :=
    lookupM_reduce TagData.combine a.tags hb k
  refine ⟨?_, ?_, ?_⟩
  · intro va vb hva hvb
    rw [hred, hva, hvb]
    rfl
  · intro hnone
    rw [hred, hnone, optCombine_none_right]
  · intro hnone
    rw [hred, hnone, optCombine_none_left]

theorem claim_C2_witness :
    (keysM (SiteData.new 3 4 [("a", TagData.new 1 3)]).tags).Nodup ∧
    lookupM ((SiteData.new 1 2 [("a", TagData.new 1 2)]).combine
        (SiteData.new 3 4 [("a", TagData.new 1 3)])).tags "a"
      = some ((TagData.new 1 2).combine (TagData.new 1 3)) :=
  ⟨by decide,
    (claim_C2_combine_pointwise.2.2 (SiteData.new 1 2 [("a", TagData.new 1 2)])
        (SiteData.new 3 4 [("a", TagData.new 1 3)]) (by decide) "a").1
      (TagData.new 1 2) (TagData.new 1 3) (by decide) (by decide)⟩

/-- C3: the line reducer returns a Report whose site map is the singleton
of the given site with questions 1 and words equal to the whitespace
token count of the texts, and whose global tag map has exactly one entry
per tag name of the record, each with questions 1 and the same word
count; the site-level counters are incremented once regardless of the
number of tags. -/
theorem claim_C3_line_reducer (rec : LineJsonStructure) (site : String) :
    ∃ sd : SiteData,
      (generate_result_data_from_line rec (JsonStructure.new site)).sites = [(site, sd)] ∧
      sd.questions = 1 ∧ sd.words = word_counter rec.texts ∧
      ∀ t, lookupM (generate_result_data_from_line rec (JsonStructure.new site)).tags t
          = (if t ∈ rec.tags then some (TagData.new 1 (word_counter rec.texts)) else none) := by
  refine ⟨SiteData.new QUESTIONS_PER_LINE (word_counter rec.texts)
      (rec.tags.foldl
        (fun m tag => insertM m tag (TagData.new QUESTIONS_PER_LINE (word_counter rec.texts))) []),
    rfl, rfl, rfl, ?_⟩
  intro t
  show lookupM (rec.tags.foldl
      (fun m tag => insertM m tag (TagData.new QUESTIONS_PER_LINE (word_counter rec.texts))) []) t
    = _
  rw [lookupM_foldl_insertM]
  by_cases h : t ∈ rec.tags
  · simp [h, QUESTIONS_PER_LINE]
  · simp [h, lookupM_nil]

/-- C5: `get_coef` is the floor integer division `words / questions`, and
under the invariant `questions ≥ 1` the division-by-zero branch is never
taken. -/
theorem claim_C5_coef_floor_div :
    (∀ t : TagData, 1 ≤ t.questions → t.get_coef = some (t.words / t.questions)) ∧
    (∀ s : SiteData, 1 ≤ s.questions → s.get_coef = some (s.words / s.questions)) := by
  constructor
  · intro t h
    have hne : t.questions ≠ 0 := Nat.pos_iff_ne_zero.mp h
    simp [TagData.get_coef, hne]
  · intro s h
    have hne : s.questions ≠ 0 := Nat.pos_iff_ne_zero.mp h
    simp [SiteData.get_coef, hne]

theorem claim_C5_witness :
    1 ≤ (TagData.new 2 7).questions ∧ (TagData.new 2 7).get_coef = some 3 :=
  ⟨by decide, by rw [claim_C5_coef_floor_div.1 (TagData.new 2 7) (by decide)]; rfl⟩

/-- C6: a line that fails to parse contributes the identity Report, so a
file with one malformed line among others reduces to exactly the same
Report as the same file with that line removed. -/
theorem claim_C6_malformed_identity (pre post : List (Option LineJsonStructure)) (site : String) :
    line_contribution site none = ResultData.empty ∧
    process_lines (pre ++ none :: post) site = process_lines (pre ++ post) site := by
  refine ⟨rfl, ?_⟩
  unfold process_lines
  rw [List.map_append, List.map_append, List.map_cons, List.foldl_append, List.foldl_append,
      List.foldl_cons]
  rw [show line_contribution site none = ResultData.empty from rfl, ResultData.add_empty]

theorem claim_C7_counterexample :
    lookupM (generate_result_data_from_line ⟨["x y"], ["a", "a"]⟩ (JsonStructure.new "s")).tags "a"
      = some (TagData.new 1 2) ∧
    lookupM (generate_result_data_from_line ⟨["x y"], ["a", "a"]⟩ (JsonStructure.new "s")).tags "a"
      ≠ some (TagData.new 2 4) :=
  ⟨by decide, by decide⟩

/-- C7 (amended): a tag name that occurs more than once in one record's
tag list is `insert`-ed repeatedly with the same fresh counter, so it
collapses to a single entry with questions 1 and the word count counted
once, not once per occurrence. -/
theorem claim_C7_amended (rec : LineJsonStructure) (site t : String)
    (h : 1 < rec.tags.count t) :
    lookupM (generate_result_data_from_line rec (JsonStructure.new site)).tags t
      = some (TagData.new 1 (word_counter rec.texts)) := by
  have hm : t ∈ rec.tags :=
    List.count_pos_iff.mp (lt_trans Nat.zero_lt_one h)
  show lookupM (rec.tags.foldl
      (fun m tag => insertM m tag (TagData.new QUESTIONS_PER_LINE (word_counter rec.texts))) []) t
    = _
  rw [lookupM_foldl_insertM]
  simp [hm, QUESTIONS_PER_LINE]

theorem claim_C7_amended_witness :
    1 < (LineJsonStructure.mk ["x y"] ["a", "a"]).tags.count "a" ∧
    lookupM (generate_result_data_from_line ⟨["x y"], ["a", "a"]⟩ (JsonStructure.new "s")).tags "a"
      = some (TagData.new 1 2) :=
  ⟨by decide, claim_C7_amended ⟨["x y"], ["a", "a"]⟩ "s" "a" (by decide)⟩

/-- C8: merge carries `padron` through from the left operand unchanged
and does not merge `totals`: the result's totals are the left operand's,
never a concatenation, and stay empty when they were empty before the
ranking pass. -/
theorem claim_C8_frame (a b : ResultData) :
    (a.add b).padron = a.padron ∧ (a.add b).totals = a.totals ∧
    (a.totals = TotalsData.mk [] [] → (a.add b).totals = TotalsData.mk [] []) :=
  ⟨rfl, rfl, fun h => h⟩

theorem claim_C8_witness :
    ((ResultData.mk 5 [] [] ⟨[], []⟩).add (ResultData.mk 7 [] [] ⟨["s"], ["t"]⟩)).padron = 5 ∧
    ((ResultData.mk 5 [] [] ⟨[], []⟩).add (ResultData.mk 7 [] [] ⟨["s"], ["t"]⟩)).totals
      = TotalsData.mk [] [] :=
  ⟨(claim_C8_frame (ResultData.mk 5 [] [] ⟨[], []⟩) (ResultData.mk 7 [] [] ⟨["s"], ["t"]⟩)).1,
    (claim_C8_frame (ResultData.mk 5 [] [] ⟨[], []⟩) (ResultData.mk 7 [] [] ⟨["s"], ["t"]⟩)).2.2 rfl⟩

/-- C10: a record with an empty tag list still contributes one site entry
with questions 1 and the record's word count, while the site-local tag
map and the global tag map are both empty. -/
theorem claim_C10_no_tags (rec : LineJsonStructure) (site : String) (h : rec.tags = []) :
    (generate_result_data_from_line rec (JsonStructure.new site)).sites
      = [(site, SiteData.new 1 (word_counter rec.texts) [])] ∧
    (generate_result_data_from_line rec (JsonStructure.new site)).tags = [] := by
  obtain ⟨texts, tags⟩ := rec
  simp only at h
  subst h
  exact ⟨rfl, rfl⟩

theorem claim_C10_witness :
    (LineJsonStructure.mk ["x y", "z"] []).tags = [] ∧
    (generate_result_data_from_line ⟨["x y", "z"], []⟩ (JsonStructure.new "s")).sites
      = [("s", SiteData.new 1 3 [])] ∧
    (generate_result_data_from_line ⟨["x y", "z"], []⟩ (JsonStructure.new "s")).tags = [] :=
  ⟨rfl, (claim_C10_no_tags ⟨["x y", "z"], []⟩ "s" rfl).1,
    (claim_C10_no_tags ⟨["x y", "z"], []⟩ "s" rfl).2⟩

/-- C1: merge is associative and commutative up to `ResultData.equiv`
(same key-sets and values, ignoring the ranking fields `padron`, `totals`
and `chatty_tags`), with the empty Report as identity: any two merge
trees over the same multiset of well-formed contributions evaluate to
equivalent Reports, whatever the grouping and ordering of the merge
calls. -/
theorem claim_C1_merge_monoid :
    (∀ t1 t2 : MergeTree, t1.leaves.Perm t2.leaves → (∀ r ∈ t1.leaves, r.WF) →
      t1.eval.equiv t2.eval) ∧
    (∀ a b : ResultData, a.WF → b.WF → (a.add b).equiv (b.add a)) ∧
    (∀ a b c : ResultData, b.WF → c.WF → ((a.add b).add c).equiv (a.add (b.add c))) ∧
    (∀ r : ResultData, r.add ResultData.empty = r) ∧
    (∀ r : ResultData, r.WF → (ResultData.empty.add r).equiv r) := by
  refine ⟨?_, fun a b ha hb => ResultData.add_comm_equiv ha hb,
    fun a b c hb hc => ResultData.add_assoc_equiv a hb hc,
    ResultData.add_empty, fun r hr => ResultData.empty_add_equiv hr⟩
  intro t1 t2 hp hwf
  have hwf2 : ∀ r ∈ t2.leaves, r.WF := fun r hr => hwf r (hp.mem_iff.mpr hr)
  have e1 := MergeTree.eval_equiv_fold t1 hwf
  have e2 := MergeTree.eval_equiv_fold t2 hwf2
  have em : (fold_contributions t1.leaves).equiv (fold_contributions t2.leaves) :=
    foldl_add_perm hp hwf ResultData.empty_WF
  exact ResultData.equiv_trans (ResultData.equiv_trans e1 em) (ResultData.equiv_symm e2)

theorem claim_C1_witness :
    ((MergeTree.node (.leaf (ResultData.new 1 [("s", SiteData.new 1 2 [("a", TagData.new 1 2)])]
          [("a", TagData.new 1 2)]))
        (.leaf (ResultData.new 2 [] [("b", TagData.new 3 4)]))).leaves.Perm
      (MergeTree.node (.leaf (ResultData.new 2 [] [("b", TagData.new 3 4)]))
        (.leaf (ResultData.new 1 [("s", SiteData.new 1 2 [("a", TagData.new 1 2)])]
          [("a", TagData.new 1 2)]))).leaves) ∧
    (∀ r ∈ (MergeTree.node (.leaf (ResultData.new 1 [("s", SiteData.new 1 2 [("a", TagData.new 1 2)])]
          [("a", TagData.new 1 2)]))
        (.leaf (ResultData.new 2 [] [("b", TagData.new 3 4)]))).leaves, r.WF) ∧
    (MergeTree.node (.leaf (ResultData.new 1 [("s", SiteData.new 1 2 [("a", TagData.new 1 2)])]
          [("a", TagData.new 1 2)]))
        (.leaf (ResultData.new 2 [] [("b", TagData.new 3 4)]))).eval.equiv
      (MergeTree.node (.leaf (ResultData.new 2 [] [("b", TagData.new 3 4)]))
        (.leaf (ResultData.new 1 [("s", SiteData.new 1 2 [("a", TagData.new 1 2)])]
          [("a", TagData.new 1 2)]))).eval :=
  ⟨by decide, by decide, claim_C1_merge_monoid.1 _ _ (by decide) (by decide)⟩

theorem process_tags_length {td : List (String × TagData)} {out : List String}
    (h : process_tags td = some out) : out.length ≤ CHATTY_TAGS_MAX := by
  unfold process_tags at h
  cases hm : td.mapM (fun kv => Option.map (fun c => (kv.1, c)) kv.2.get_coef) with
  | none => rw [hm] at h; exact absurd h (by simp)
  | some top =>
      rw [hm] at h
      simp only [Option.some.injEq] at h
      rw [← h, List.length_map, List.length_take]
      exact Nat.min_le_left _ _

theorem process_sites_mapM_chatty :
    ∀ (sd : List (String × SiteData)) (pairs : List ((String × SiteData) × (String × Nat))),
    sd.mapM (fun kv => Option.bind (process_tags kv.2.tags) (fun ct =>
        Option.map (fun coef => ((kv.1, kv.2.load_chatty_tags ct), (kv.1, coef)))
          kv.2.get_coef)) = some pairs →
    ∀ p ∈ pairs, p.1.2.chatty_tags.length ≤ CHATTY_TAGS_MAX
  | [], pairs, h, p, hp => by
      simp only [List.mapM_nil, Option.pure_def, Option.some.injEq] at h
      rw [← h] at hp
      simp at hp
  | kv :: rest, pairs, h, p, hp => by
      rw [List.mapM_cons] at h
      cases hpt : process_tags kv.2.tags with
      | none =>
          rw [hpt] at h
          simp at h
      | some ct =>
          rw [hpt] at h
          cases hgc : kv.2.get_coef with
          | none =>
              rw [hgc] at h
              simp at h
          | some coef =>
              rw [hgc] at h
              cases hrest : rest.mapM (fun kv => Option.bind (process_tags kv.2.tags) (fun ct =>
                  Option.map (fun coef => ((kv.1, kv.2.load_chatty_tags ct), (kv.1, coef)))
                    kv.2.get_coef)) with
              | none =>
                  rw [hrest] at h
                  simp at h
              | some ps =>
                  rw [hrest] at h
                  have h2 : ((kv.1, kv.2.load_chatty_tags ct), (kv.1, coef)) :: ps = pairs :=
                    Option.some.inj h
                  rw [← h2] at hp
                  rcases List.mem_cons.mp hp with he | hp'
                  · rw [he]
                    show ct.length ≤ CHATTY_TAGS_MAX
                    exact process_tags_length hpt
                  · exact process_sites_mapM_chatty rest ps hrest p hp'

theorem claim_C9_counterexample :
    (SiteData.new 1 2 []).chatty_tags = List.replicate CHATTY_TAGS_MAX "" ∧
    (SiteData.new 1 2 []).chatty_tags ≠ [] :=
  ⟨rfl, by decide⟩

/-- C9 (amended): from creation until the ranking pass, a
SiteAggregate's `chatty_tags` holds `CHATTY_TAGS_MAX` sentinel empty
strings (not an empty list); merge leaves the destination's
`chatty_tags` untouched; only `load_chatty_tags`, called by the ranking
pass, replaces it, and the ranking pass stores at most
`CHATTY_TAGS_MAX` tag names. -/
theorem claim_C9_amended :
    (∀ q w tags, (SiteData.new q w tags).chatty_tags = List.replicate CHATTY_TAGS_MAX "") ∧
    (∀ a b : SiteData, (a.combine b).chatty_tags = a.chatty_tags) ∧
    (∀ s l, (SiteData.load_chatty_tags s l).chatty_tags = l) ∧
    (∀ td out, process_tags td = some out → out.length ≤ CHATTY_TAGS_MAX) ∧
    (∀ sd res, process_sites sd = some res →
      ∀ p ∈ res.1, p.2.chatty_tags.length ≤ CHATTY_TAGS_MAX) := by
  refine ⟨fun q w tags => rfl, fun a b => rfl, fun s l => rfl,
    fun td out h => process_tags_length h, ?_⟩
  intro sd res h p hp
  unfold process_sites at h
  cases hm : sd.mapM (fun kv => Option.bind (process_tags kv.2.tags) (fun ct =>
      Option.map (fun coef => ((kv.1, kv.2.load_chatty_tags ct), (kv.1, coef)))
        kv.2.get_coef)) with
  | none => rw [hm] at h; exact absurd h (by simp)
  | some pairs =>
      rw [hm] at h
      simp only [Option.some.injEq] at h
      rw [← h] at hp
      simp only at hp
      obtain ⟨q, hq, hqp⟩ := List.mem_map.mp hp
      rw [← hqp]
      exact process_sites_mapM_chatty sd pairs hm q hq

theorem claim_C9_amended_witness :
    process_tags [("a", TagData.new 1 5)] = some ["a"] ∧
    (["a"] : List String).length ≤ CHATTY_TAGS_MAX :=
  ⟨by decide, claim_C9_amended.2.2.2.1 [("a", TagData.new 1 5)] ["a"] (by decide)⟩

theorem mapM_get_coef (l : List (String × TagData)) (h : ∀ kv ∈ l, 1 ≤ kv.2.questions) :
    l.mapM (fun kv => Option.map (fun c => (kv.1, c)) kv.2.get_coef)
      = some (l.map (fun kv => (kv.1, kv.2.words / kv.2.questions))) := by
  induction l with
  | nil => rfl
  | cons kv rest ih =>
      have h1 : kv.2.questions ≠ 0 :=
        Nat.pos_iff_ne_zero.mp (h kv (List.mem_cons_self _ _))
      rw [List.mapM_cons, ih (fun x hx => h x (List.mem_cons_of_mem _ hx))]
      simp [TagData.get_coef, h1]

/-- C4: the ranking pass succeeds under the invariant `questions ≥ 1`,
sorts the (name, coefficient) pairs by coefficient descending with the
name ascending as tie-break (a total order, so the output is the same
for every iteration order of the map) and returns the names of the
first `CHATTY_TAGS_MAX` entries; with fewer entries than
`CHATTY_TAGS_MAX` it returns exactly all of them in sorted order, with
no padding. -/
theorem claim_C4_ranking (l : List (String × TagData))
    (h : ∀ kv ∈ l, 1 ≤ kv.2.questions) :
    ∃ out sortedPairs,
      process_tags l = some out ∧
      sortedPairs.Perm (l.map (fun kv => (kv.1, kv.2.words / kv.2.questions))) ∧
      List.Sorted rankLE sortedPairs ∧
      out = (sortedPairs.take CHATTY_TAGS_MAX).map Prod.fst ∧
      out.length = min CHATTY_TAGS_MAX l.length ∧
      (l.length < CHATTY_TAGS_MAX → out = sortedPairs.map Prod.fst) ∧
      (∀ l2, l.Perm l2 → process_tags l2 = process_tags l) := by
  have hsort : List.Sorted rankLE
      (sort_by_coef_and_name (l.map fun kv => (kv.1, kv.2.words / kv.2.questions))) :=
    List.sorted_insertionSort rankLE _
  have hperm : (sort_by_coef_and_name
        (l.map fun kv => (kv.1, kv.2.words / kv.2.questions))).Perm
      (l.map fun kv => (kv.1, kv.2.words / kv.2.questions)) :=
    List.perm_insertionSort rankLE _
  have hpt : process_tags l = some (((sort_by_coef_and_name
      (l.map fun kv => (kv.1, kv.2.words / kv.2.questions))).take CHATTY_TAGS_MAX).map Prod.fst) := by
    unfold process_tags
    rw [mapM_get_coef l h]
  refine ⟨_, sort_by_coef_and_name (l.map fun kv => (kv.1, kv.2.words / kv.2.questions)),
    hpt, hperm, hsort, rfl, ?_, ?_, ?_⟩
  · rw [List.length_map, List.length_take, hperm.length_eq, List.length_map]
  · intro hlt
    rw [List.take_of_length_le]
    rw [hperm.length_eq, List.length_map]
    exact Nat.le_of_lt hlt
  · intro l2 hp2
    have h2 : ∀ kv ∈ l2, 1 ≤ kv.2.questions := fun kv hk => h kv (hp2.mem_iff.mpr hk)
    have hp3 : (sort_by_coef_and_name
          (l2.map fun kv => (kv.1, kv.2.words / kv.2.questions))).Perm
        (sort_by_coef_and_name (l.map fun kv => (kv.1, kv.2.words / kv.2.questions))) :=
      (List.perm_insertionSort rankLE _).trans ((hp2.symm.map _).trans hperm.symm)
    have hsort2 : List.Sorted rankLE
        (sort_by_coef_and_name (l2.map fun kv => (kv.1, kv.2.words / kv.2.questions))) :=
      List.sorted_insertionSort rankLE _
    have heq : sort_by_coef_and_name (l2.map fun kv => (kv.1, kv.2.words / kv.2.questions))
        = sort_by_coef_and_name (l.map fun kv => (kv.1, kv.2.words / kv.2.questions)) :=
      List.eq_of_perm_of_sorted hp3 hsort2 hsort
    unfold process_tags
    rw [mapM_get_coef l h, mapM_get_coef l2 h2]
    show some (((sort_by_coef_and_name
        (l2.map fun kv => (kv.1, kv.2.words / kv.2.questions))).take CHATTY_TAGS_MAX).map Prod.fst)
      = some (((sort_by_coef_and_name
        (l.map fun kv => (kv.1, kv.2.words / kv.2.questions))).take CHATTY_TAGS_MAX).map Prod.fst)
    rw [heq]

theorem claim_C4_witness :
    (∀ kv ∈ [("b", TagData.new 1 5), ("a", TagData.new 2 7)], 1 ≤ kv.2.questions) ∧
    (∃ out sortedPairs,
      process_tags [("b", TagData.new 1 5), ("a", TagData.new 2 7)] = some out ∧
      sortedPairs.Perm ([("b", TagData.new 1 5), ("a", TagData.new 2 7)].map
        (fun kv => (kv.1, kv.2.words / kv.2.questions))) ∧
      List.Sorted rankLE sortedPairs ∧
      out = (sortedPairs.take CHATTY_TAGS_MAX).map Prod.fst ∧
      out.length = min CHATTY_TAGS_MAX ([("b", TagData.new 1 5), ("a", TagData.new 2 7)] :
        List (String × TagData)).length ∧
      (([("b", TagData.new 1 5), ("a", TagData.new 2 7)] :
          List (String × TagData)).length < CHATTY_TAGS_MAX →
        out = sortedPairs.map Prod.fst) ∧
      (∀ l2, ([("b", TagData.new 1 5), ("a", TagData.new 2 7)] :
          List (String × TagData)).Perm l2 →
        process_tags l2 = process_tags [("b", TagData.new 1 5), ("a", TagData.new 2 7)])) :=
  ⟨by decide, claim_C4_ranking [("b", TagData.new 1 5), ("a", TagData.new 2 7)] (by decide)⟩
